import Mathlib

/-!
Verification of the todo-store contract of riolly/satudua.

The store handlers (the `list` query and the `create`, `toggleComplete`,
`remove`, `clearAll` mutations of `convex/todos.ts`) are modelled from the
specification, since that file is not part of the sources here; the schema
(`convex/schema.ts`) and the view binding (`src/routes/todos.tsx`) are
embedded from the source. Records carry the store-assigned unique id and
creation timestamp together with the two schema fields `title` and
`completed`; the store state threads the counters the store uses to assign
fresh ids and strictly increasing creation times.
-/

set_option autoImplicit false

namespace Todos

/-- A to-do record: the store-assigned unique identifier and creation
timestamp, plus the two fields of the `todos` table in convex/schema.ts
(a string `title` and a boolean `completed`). -/
structure Todo where
  id : Nat
  creationTimestamp : Nat
  title : String
  completed : Bool
deriving DecidableEq

/-- The error taxonomy of the handler layer: a ValidationError for malformed
input and a NotFoundError carrying its message. -/
inductive StoreErr where
  | validationError
  | notFound (msg : String)
deriving DecidableEq

/-- The store state: the todos collection plus the counters from which the
store assigns fresh ids and strictly increasing creation timestamps. -/
structure DB where
  todos : List Todo
  nextId : Nat
  now : Nat
deriving DecidableEq

/-- The initial, empty collection. -/
def DB.empty : DB := ⟨[], 0, 0⟩

/-- Embedding of JavaScript String.prototype.trim as the source uses it:
drop leading and trailing whitespace characters. -/
def trim (s : String) : String :=
  ⟨((s.data.dropWhile Char.isWhitespace).reverse.dropWhile
      Char.isWhitespace).reverse⟩

/-- Insert a record into a list kept ordered by descending creation
timestamp. -/
def insertDesc (t : Todo) : List Todo → List Todo
  | [] => [t]
  | u :: us =>
    if u.creationTimestamp ≤ t.creationTimestamp then t :: u :: us
    else u :: insertDesc t us

/-- Order a list of records by descending creation timestamp. -/
def sortDesc (l : List Todo) : List Todo := l.foldr insertDesc []

/-- Modelled from the spec: the `list` query handler of convex/todos.ts
(absent from src/) returns all records ordered by descending creation time,
and an empty sequence, never an error, on an empty collection. -/
def list (db : DB) : List Todo := sortDesc db.todos

/-- Modelled from the spec: the `create` mutation handler of convex/todos.ts
(absent from src/) fails with a ValidationError if the title is empty after
trimming, and otherwise inserts a record with completed set to false, a fresh
id and the current creation time, returning the new record's identifier. -/
def create (title : String) (db : DB) : Except StoreErr (Nat × DB) :=
  if trim title = "" then Except.error StoreErr.validationError
  else Except.ok (db.nextId,
    { todos := db.todos ++
        [{ id := db.nextId, creationTimestamp := db.now,
           title := title, completed := false }],
      nextId := db.nextId + 1,
      now := db.now + 1 })

/-- Look up the record with the given id, if any. -/
def findById (id : Nat) : List Todo → Option Todo
  | [] => none
  | t :: ts => if t.id = id then some t else findById id ts

/-- Flip the completed flag of the record with the given id. -/
def toggleById (id : Nat) : List Todo → List Todo
  | [] => []
  | t :: ts =>
    if t.id = id then { t with completed := !t.completed } :: ts
    else t :: toggleById id ts

/-- Modelled from the spec: the `toggleComplete` mutation handler of
convex/todos.ts (absent from src/) looks up the record by id; if absent it
fails with a NotFoundError whose message is "Todo not found", otherwise it
flips completed and persists the record. -/
def toggleComplete (id : Nat) (db : DB) : Except StoreErr DB :=
  match findById id db.todos with
  | none => Except.error (StoreErr.notFound "Todo not found")
  | some _ => Except.ok { db with todos := toggleById id db.todos }

/-- Delete the record with the given id, if any. -/
def removeById (id : Nat) : List Todo → List Todo
  | [] => []
  | t :: ts => if t.id = id then ts else t :: removeById id ts

/-- Modelled from the spec: the `remove` mutation handler of convex/todos.ts
(absent from src/) deletes the record if present and raises no error when the
id is absent. -/
def remove (id : Nat) (db : DB) : DB :=
  { db with todos := removeById id db.todos }

/-- Modelled from the spec: the `clearAll` mutation handler of convex/todos.ts
(absent from src/) deletes every record in the collection and returns the
count deleted; it never errors. -/
def clearAll (db : DB) : Nat × DB :=
  (db.todos.length, { db with todos := [] })

/-- Run a sequence of create calls from a given state, threading the store
state; a rejected create leaves the state unchanged. -/
def createAll (titles : List String) (db : DB) : DB :=
  match titles with
  | [] => db
  | s :: ss =>
    match create s db with
    | Except.ok p => createAll ss p.2
    | Except.error _ => createAll ss db

/-- The records a sequence of successful create calls produces, given the
store's id and clock counters at the start of the sequence. -/
def mkRecs (n m : Nat) : List String → List Todo
  | [] => []
  | s :: ss =>
    { id := n, creationTimestamp := m, title := s, completed := false }
      :: mkRecs (n + 1) (m + 1) ss

/-- Outcome of one run of the form submit handler of src/routes/todos.tsx:
the title passed to `create` when a call was issued, the content of the
controlled input field afterwards, and the resulting store state. -/
structure SubmitResult where
  call : Option String
  input : String
  db : DB
deriving DecidableEq

/-- The handleSubmit handler of src/routes/todos.tsx: it returns without
issuing any call when the trimmed input is empty; otherwise it calls create
with the trimmed title and, when that call returns successfully, resets the
input field to the empty string (a thrown failure skips the reset). -/
def handleSubmit (newTodoTitle : String) (db : DB) : SubmitResult :=
  if trim newTodoTitle = "" then ⟨none, newTodoTitle, db⟩
  else
    match create (trim newTodoTitle) db with
    | Except.ok p => ⟨some (trim newTodoTitle), "", p.2⟩
    | Except.error _ => ⟨some (trim newTodoTitle), newTodoTitle, db⟩

/-- Concrete store state holding a single record, used to instantiate the
general theorems. -/
def dbA : DB := ⟨[⟨0, 0, "A", false⟩], 1, 1⟩

/-- Concrete store state holding two records, used to instantiate the
general theorems. -/
def dbAB : DB := ⟨[⟨0, 0, "A", false⟩, ⟨1, 1, "B", true⟩], 2, 2⟩

/-- Concrete store state produced by one submitted create, used to
instantiate the view-binding theorems. -/
def dbLa : DB := ⟨[⟨0, 0, "a", false⟩], 1, 1⟩

theorem insertDesc_of_forall_lt (t : Todo) (l : List Todo)
    (h : ∀ u ∈ l, t.creationTimestamp < u.creationTimestamp) :
    insertDesc t l = l ++ [t] := by
  induction l with
  | nil => rfl
  | cons u us ih =>
    have hu : ¬ u.creationTimestamp ≤ t.creationTimestamp :=
      Nat.not_le.mpr (h u (List.mem_cons_self u us))
    simp only [insertDesc, if_neg hu, List.cons_append]
    exact congrArg (u :: ·) (ih fun v hv => h v (List.mem_cons_of_mem u hv))

theorem sortDesc_of_pairwise_lt (l : List Todo)
    (h : l.Pairwise (fun a b => a.creationTimestamp < b.creationTimestamp)) :
    sortDesc l = l.reverse := by
  induction l with
  | nil => rfl
  | cons a l ih =>
    have hstep : sortDesc (a :: l) = insertDesc a (sortDesc l) := rfl
    rw [hstep, ih (List.Pairwise.of_cons h),
      insertDesc_of_forall_lt a l.reverse
        (fun u hu => (List.pairwise_cons.mp h).1 u (List.mem_reverse.mp hu)),
      List.reverse_cons]

theorem mkRecs_ts_ge (titles : List String) :
    ∀ n m : Nat, ∀ t ∈ mkRecs n m titles, m ≤ t.creationTimestamp := by
  induction titles with
  | nil => intro n m t ht; cases ht
  | cons s ss ih =>
    intro n m t ht
    rcases List.mem_cons.mp ht with h1 | h1
    · rw [h1]
    · exact Nat.le_of_succ_le (ih (n + 1) (m + 1) t h1)

theorem mkRecs_pairwise (titles : List String) :
    ∀ n m : Nat, (mkRecs n m titles).Pairwise
      (fun a b => a.creationTimestamp < b.creationTimestamp) := by
  induction titles with
  | nil => intro n m; exact List.Pairwise.nil
  | cons s ss ih =>
    intro n m
    refine List.pairwise_cons.mpr ⟨?_, ih (n + 1) (m + 1)⟩
    intro u hu
    exact Nat.lt_of_succ_le (mkRecs_ts_ge ss (n + 1) (m + 1) u hu)

theorem mkRecs_completed (titles : List String) :
    ∀ n m : Nat, ∀ t ∈ mkRecs n m titles, t.completed = false := by
  induction titles with
  | nil => intro n m t ht; cases ht
  | cons s ss ih =>
    intro n m t ht
    rcases List.mem_cons.mp ht with h1 | h1
    · rw [h1]
    · exact ih (n + 1) (m + 1) t h1

theorem createAll_todos (titles : List String) :
    ∀ db : DB, (∀ s ∈ titles, trim s ≠ "") →
      (createAll titles db).todos = db.todos ++ mkRecs db.nextId db.now titles := by
  induction titles with
  | nil => intro db _; simp [createAll, mkRecs]
  | cons s ss ih =>
    intro db h
    have hs : ¬ trim s = "" := h s (List.mem_cons_self s ss)
    have hstep : createAll (s :: ss) db = createAll ss
        { todos := db.todos ++
            [{ id := db.nextId, creationTimestamp := db.now,
               title := s, completed := false }],
          nextId := db.nextId + 1, now := db.now + 1 } := by
      simp only [createAll, create, if_neg hs]
    rw [hstep, ih _ (fun u hu => h u (List.mem_cons_of_mem s hu))]
    simp [mkRecs, List.append_assoc]

/-- C1: starting from the empty collection, any sequence of (non-rejected)
create calls leaves the store so that list() returns exactly the created
records, each with completed = false, ordered by strictly descending
creation timestamp; and list() on the empty collection returns the empty
sequence (it is a total function, so it never errors). -/
theorem createAll_list_spec (titles : List String)
    (h : ∀ s ∈ titles, trim s ≠ "") :
    list (createAll titles DB.empty) = (mkRecs 0 0 titles).reverse ∧
    (∀ t ∈ list (createAll titles DB.empty), t.completed = false) ∧
    (list (createAll titles DB.empty)).Pairwise
      (fun a b => b.creationTimestamp < a.creationTimestamp) ∧
    list DB.empty = [] := by
  have h1 : (createAll titles DB.empty).todos = mkRecs 0 0 titles := by
    simpa [DB.empty] using createAll_todos titles DB.empty h
  have h2 : list (createAll titles DB.empty) = (mkRecs 0 0 titles).reverse := by
    rw [list, h1, sortDesc_of_pairwise_lt _ (mkRecs_pairwise titles 0 0)]
  refine ⟨h2, ?_, ?_, rfl⟩
  · intro t ht
    rw [h2] at ht
    exact mkRecs_completed titles 0 0 t (List.mem_reverse.mp ht)
  · rw [h2]
    exact List.pairwise_reverse.mpr (mkRecs_pairwise titles 0 0)

theorem createAll_list_spec_witness :
    list (createAll ["A", "B"] DB.empty) = (mkRecs 0 0 ["A", "B"]).reverse ∧
    (∀ t ∈ list (createAll ["A", "B"] DB.empty), t.completed = false) ∧
    (list (createAll ["A", "B"] DB.empty)).Pairwise
      (fun a b => b.creationTimestamp < a.creationTimestamp) ∧
    list DB.empty = [] :=
  createAll_list_spec ["A", "B"] (by decide)

theorem findById_eq_none (id : Nat) (l : List Todo) :
    findById id l = none ↔ ∀ t ∈ l, t.id ≠ id := by
  induction l with
  | nil => simp [findById]
  | cons u us ih =>
    by_cases hu : u.id = id
    · simp [findById, if_pos hu, hu]
    · simp [findById, if_neg hu, ih, hu]

theorem findById_some (id : Nat) (l : List Todo) (t : Todo)
    (h : findById id l = some t) : t ∈ l ∧ t.id = id := by
  induction l with
  | nil => cases h
  | cons u us ih =>
    by_cases hu : u.id = id
    · rw [findById, if_pos hu] at h
      cases h
      exact ⟨List.mem_cons_self _ _, hu⟩
    · rw [findById, if_neg hu] at h
      rcases ih h with ⟨h1, h2⟩
      exact ⟨List.mem_cons_of_mem u h1, h2⟩

theorem toggleById_of_findById (id : Nat) (l : List Todo) (t : Todo)
    (h : findById id l = some t) :
    { t with completed := !t.completed } ∈ toggleById id l := by
  induction l with
  | nil => cases h
  | cons u us ih =>
    by_cases hu : u.id = id
    · rw [findById, if_pos hu] at h
      cases h
      rw [toggleById, if_pos hu]
      exact List.mem_cons_self _ _
    · rw [findById, if_neg hu] at h
      rw [toggleById, if_neg hu]
      exact List.mem_cons_of_mem u (ih h)

theorem findById_toggleById (id : Nat) (l : List Todo) (t : Todo)
    (h : findById id l = some t) :
    findById id (toggleById id l) = some { t with completed := !t.completed } := by
  induction l with
  | nil => cases h
  | cons u us ih =>
    by_cases hu : u.id = id
    · rw [findById, if_pos hu] at h
      cases h
      rw [toggleById, if_pos hu, findById, if_pos hu]
    · rw [findById, if_neg hu] at h
      rw [toggleById, if_neg hu, findById, if_neg hu]
      exact ih h

theorem toggleById_toggleById (id : Nat) (l : List Todo) :
    toggleById id (toggleById id l) = l := by
  induction l with
  | nil => rfl
  | cons u us ih =>
    by_cases hu : u.id = id
    · rw [toggleById, if_pos hu, toggleById, if_pos hu]
      cases u
      simp [Bool.not_not]
    · rw [toggleById, if_neg hu, toggleById, if_neg hu, ih]

theorem toggleById_forall₂ (id : Nat) (l : List Todo) :
    List.Forall₂ (fun u v => v.id = u.id ∧ v.title = u.title ∧
      v.creationTimestamp = u.creationTimestamp ∧ (u.id ≠ id → v = u))
      l (toggleById id l) := by
  induction l with
  | nil => exact List.Forall₂.nil
  | cons u us ih =>
    by_cases hu : u.id = id
    · rw [toggleById, if_pos hu]
      refine List.Forall₂.cons ⟨rfl, rfl, rfl, fun hne => absurd hu hne⟩ ?_
      exact List.forall₂_same.mpr fun a _ => ⟨rfl, rfl, rfl, fun _ => rfl⟩
    · rw [toggleById, if_neg hu]
      exact List.Forall₂.cons ⟨rfl, rfl, rfl, fun _ => rfl⟩ ih

theorem toggleById_map_title (id : Nat) (l : List Todo) :
    (toggleById id l).map Todo.title = l.map Todo.title := by
  induction l with
  | nil => rfl
  | cons u us ih =>
    by_cases hu : u.id = id
    · rw [toggleById, if_pos hu]
      simp
    · rw [toggleById, if_neg hu]
      simp [ih]

theorem removeById_of_forall_ne (id : Nat) (l : List Todo)
    (h : ∀ t ∈ l, t.id ≠ id) : removeById id l = l := by
  induction l with
  | nil => rfl
  | cons u us ih =>
    rw [removeById, if_neg (h u (List.mem_cons_self u us)),
      ih fun t htm => h t (List.mem_cons_of_mem u htm)]

theorem mem_removeById (id : Nat) (l : List Todo) (t : Todo)
    (h : t ∈ removeById id l) : t ∈ l := by
  induction l with
  | nil => cases h
  | cons u us ih =>
    by_cases hu : u.id = id
    · rw [removeById, if_pos hu] at h
      exact List.mem_cons_of_mem u h
    · rw [removeById, if_neg hu] at h
      rcases List.mem_cons.mp h with h1 | h1
      · rw [h1]; exact List.mem_cons_self u us
      · exact List.mem_cons_of_mem u (ih h1)

theorem removeById_not_mem (id : Nat) (l : List Todo)
    (hnd : (l.map Todo.id).Nodup) : ∀ t ∈ removeById id l, t.id ≠ id := by
  induction l with
  | nil => intro t ht; cases ht
  | cons u us ih =>
    rw [List.map_cons, List.nodup_cons] at hnd
    intro t ht
    by_cases hu : u.id = id
    · rw [removeById, if_pos hu] at ht
      intro hti
      exact hnd.1 (hu ▸ hti ▸ List.mem_map_of_mem Todo.id ht)
    · rw [removeById, if_neg hu] at ht
      rcases List.mem_cons.mp ht with h1 | h1
      · rw [h1]; exact hu
      · exact ih hnd.2 t h1

theorem removeById_decomp (id : Nat) (l : List Todo)
    (h : ∃ t ∈ l, t.id = id) :
    ∃ l1 t l2, l = l1 ++ t :: l2 ∧ t.id = id ∧
      (∀ u ∈ l1, u.id ≠ id) ∧ removeById id l = l1 ++ l2 := by
  induction l with
  | nil => rcases h with ⟨t, ht, _⟩; cases ht
  | cons u us ih =>
    by_cases hu : u.id = id
    · exact ⟨[], u, us, rfl, hu, fun v hv => absurd hv (List.not_mem_nil v),
        by rw [removeById, if_pos hu]; rfl⟩
    · have hus : ∃ t ∈ us, t.id = id := by
        rcases h with ⟨t, htm, hti⟩
        rcases List.mem_cons.mp htm with h1 | h1
        · exact absurd (h1 ▸ hti) hu
        · exact ⟨t, h1, hti⟩
      rcases ih hus with ⟨l1, t, l2, he, hti, hl1, hr⟩
      refine ⟨u :: l1, t, l2, by rw [he]; rfl, hti, ?_, ?_⟩
      · intro v hv
        rcases List.mem_cons.mp hv with h1 | h1
        · rw [h1]; exact hu
        · exact hl1 v h1
      · rw [removeById, if_neg hu, hr]
        rfl

/-- C2: toggleComplete fails with a NotFoundError whose message is
"Todo not found" whenever no record with the given id exists, in particular
after the record was removed from a collection with unique ids; when the
record exists, it succeeds and persists the record with its completed flag
flipped. The thrown failure is the error value of the handler. -/
theorem toggleComplete_spec (id : Nat) (db : DB) :
    ((∀ t ∈ db.todos, t.id ≠ id) →
      toggleComplete id db = Except.error (StoreErr.notFound "Todo not found")) ∧
    ((db.todos.map Todo.id).Nodup →
      toggleComplete id (remove id db) =
        Except.error (StoreErr.notFound "Todo not found")) ∧
    (∀ t, findById id db.todos = some t →
      ∃ db2, toggleComplete id db = Except.ok db2 ∧
        { t with completed := !t.completed } ∈ db2.todos) := by
  refine ⟨?_, ?_, ?_⟩
  · intro h
    rw [toggleComplete, (findById_eq_none id db.todos).mpr h]
  · intro hnd
    have hfn : findById id (remove id db).todos = none :=
      (findById_eq_none id (removeById id db.todos)).mpr
        (removeById_not_mem id db.todos hnd)
    rw [toggleComplete, hfn]
  · intro t h
    exact ⟨{ db with todos := toggleById id db.todos },
      by rw [toggleComplete, h], toggleById_of_findById id db.todos t h⟩

theorem toggleComplete_spec_witness :
    toggleComplete 5 dbA = Except.error (StoreErr.notFound "Todo not found") ∧
    toggleComplete 0 (remove 0 dbA) =
      Except.error (StoreErr.notFound "Todo not found") ∧
    ∃ db2, toggleComplete 0 dbA = Except.ok db2 ∧
      (⟨0, 0, "A", true⟩ : Todo) ∈ db2.todos :=
  ⟨(toggleComplete_spec 5 dbA).1 (by decide),
   (toggleComplete_spec 0 dbA).2.1 (by decide),
   (toggleComplete_spec 0 dbA).2.2 ⟨0, 0, "A", false⟩ (by decide)⟩

/-- C3: on an existing record, toggleComplete succeeds and applying it twice
restores the whole store state, in particular the record's original completed
value; and a successful toggleComplete changes no field other than completed:
every record keeps its id, title and creation timestamp, and records whose id
differs from the toggled one are unchanged. -/
theorem toggleComplete_involution (id : Nat) (db : DB)
    (h : ∃ t, findById id db.todos = some t) :
    (∃ db1 db2, toggleComplete id db = Except.ok db1 ∧
      toggleComplete id db1 = Except.ok db2 ∧ db2 = db) ∧
    (∀ db1, toggleComplete id db = Except.ok db1 →
      List.Forall₂ (fun u v => v.id = u.id ∧ v.title = u.title ∧
        v.creationTimestamp = u.creationTimestamp ∧ (u.id ≠ id → v = u))
        db.todos db1.todos) := by
  obtain ⟨t, ht⟩ := h
  constructor
  · refine ⟨{ db with todos := toggleById id db.todos }, db, ?_, ?_, rfl⟩
    · rw [toggleComplete, ht]
    · rw [toggleComplete]
      show (match findById id (toggleById id db.todos) with
        | none => Except.error (StoreErr.notFound "Todo not found")
        | some _ => Except.ok
            { db with todos := toggleById id (toggleById id db.todos) }) =
        Except.ok db
      rw [findById_toggleById id db.todos t ht, toggleById_toggleById]
  · intro db1 h1
    rw [toggleComplete, ht] at h1
    cases h1
    exact toggleById_forall₂ id db.todos

theorem toggleComplete_involution_witness :
    (∃ db1 db2, toggleComplete 0 dbA = Except.ok db1 ∧
      toggleComplete 0 db1 = Except.ok db2 ∧ db2 = dbA) ∧
    (∀ db1, toggleComplete 0 dbA = Except.ok db1 →
      List.Forall₂ (fun u v => v.id = u.id ∧ v.title = u.title ∧
        v.creationTimestamp = u.creationTimestamp ∧ (u.id ≠ 0 → v = u))
        dbA.todos db1.todos) :=
  toggleComplete_involution 0 dbA ⟨⟨0, 0, "A", false⟩, by decide⟩

/-- C4: clearAll returns the number of records present before the call,
returns 0 on the already empty collection, leaves the collection empty
afterwards so that list() returns the empty sequence, and is a total
function, so it never errors. -/
theorem clearAll_spec (db : DB) :
    (clearAll db).1 = db.todos.length ∧
    (clearAll db).2.todos = [] ∧
    list (clearAll db).2 = [] ∧
    (clearAll DB.empty).1 = 0 :=
  ⟨rfl, rfl, rfl, rfl⟩

/-- C5: when a record with the given id is present, remove deletes exactly
that one record: the collection decomposes around the deleted record and the
result is the same collection with only that record taken out, every other
record left in place with all its fields unchanged. -/
theorem remove_frame (id : Nat) (db : DB)
    (h : ∃ t ∈ db.todos, t.id = id) :
    (remove id db).todos.length + 1 = db.todos.length ∧
    ∃ l1 t l2, db.todos = l1 ++ t :: l2 ∧ t.id = id ∧
      (∀ u ∈ l1, u.id ≠ id) ∧ (remove id db).todos = l1 ++ l2 := by
  rcases removeById_decomp id db.todos h with ⟨l1, t, l2, he, hti, hl1, hr⟩
  have hrt : (remove id db).todos = l1 ++ l2 := hr
  constructor
  · rw [hrt, he]
    simp only [List.length_append, List.length_cons]
    omega
  · exact ⟨l1, t, l2, he, hti, hl1, hrt⟩

theorem remove_frame_witness :
    (remove 1 dbAB).todos.length + 1 = dbAB.todos.length ∧
    ∃ l1 t l2, dbAB.todos = l1 ++ t :: l2 ∧ t.id = 1 ∧
      (∀ u ∈ l1, u.id ≠ 1) ∧ (remove 1 dbAB).todos = l1 ++ l2 :=
  remove_frame 1 dbAB ⟨⟨1, 1, "B", true⟩, by decide, rfl⟩

/-- C6: remove with an absent id is a total function that changes nothing
(no error is raised, the collection is unchanged), and, on a collection with
unique ids, remove is idempotent: removing the same id twice has the same
effect as removing it once. -/
theorem remove_absent_idempotent (id : Nat) (db : DB) :
    ((∀ t ∈ db.todos, t.id ≠ id) → remove id db = db) ∧
    ((db.todos.map Todo.id).Nodup →
      remove id (remove id db) = remove id db) := by
  constructor
  · intro h
    show { db with todos := removeById id db.todos } = db
    rw [removeById_of_forall_ne id db.todos h]
  · intro hnd
    show { db with todos := removeById id (removeById id db.todos) } =
      { db with todos := removeById id db.todos }
    rw [removeById_of_forall_ne id (removeById id db.todos)
      (removeById_not_mem id db.todos hnd)]

theorem remove_absent_idempotent_witness :
    remove 7 dbA = dbA ∧ remove 7 (remove 7 dbA) = remove 7 dbA :=
  ⟨(remove_absent_idempotent 7 dbA).1 (by decide),
   (remove_absent_idempotent 7 dbA).2 (by decide)⟩

/-- C7, counterexample: the whitespace-only title is a non-empty string on
which the create handler does not succeed; it is rejected with a
ValidationError because the title is empty after trimming, so "invoked with
any non-empty string succeeds" fails as stated. -/
theorem create_nonempty_claim_cex :
    "  " ≠ "" ∧ create "  " DB.empty = Except.error StoreErr.validationError :=
  ⟨by decide, rfl⟩

/-- C7, amended: the create handler invoked with any title that is non-empty
after trimming succeeds, inserting one record with that title and
completed = false and returning the fresh identifier; it fails with a
ValidationError exactly when the title is empty after trimming. -/
theorem create_spec (title : String) (db : DB) :
    (trim title ≠ "" → create title db = Except.ok (db.nextId,
      { todos := db.todos ++
          [{ id := db.nextId, creationTimestamp := db.now,
             title := title, completed := false }],
        nextId := db.nextId + 1, now := db.now + 1 })) ∧
    (trim title = "" → create title db = Except.error StoreErr.validationError) := by
  constructor
  · intro h
    rw [create, if_neg h]
  · intro h
    rw [create, if_pos h]

theorem create_spec_witness :
    create "A" DB.empty = Except.ok (DB.empty.nextId,
      { todos := DB.empty.todos ++
          [{ id := DB.empty.nextId, creationTimestamp := DB.empty.now,
             title := "A", completed := false }],
        nextId := DB.empty.nextId + 1, now := DB.empty.now + 1 }) ∧
    create " " DB.empty = Except.error StoreErr.validationError :=
  ⟨(create_spec "A" DB.empty).1 (by decide),
   (create_spec " " DB.empty).2 (by decide)⟩

/-- Store states reachable from the empty collection through the handlers
(successful creates and toggles, removes, clearAlls). -/
inductive Reach : DB → Prop where
  | empty : Reach DB.empty
  | step_create (db db2 : DB) (title : String) (i : Nat) :
      Reach db → create title db = Except.ok (i, db2) → Reach db2
  | step_toggle (db db2 : DB) (id : Nat) :
      Reach db → toggleComplete id db = Except.ok db2 → Reach db2
  | step_remove (db : DB) (id : Nat) : Reach db → Reach (remove id db)
  | step_clear (db : DB) : Reach db → Reach (clearAll db).2

theorem reach_titles (db : DB) (h : Reach db) :
    ∀ t ∈ db.todos, trim t.title ≠ "" := by
  induction h with
  | empty => intro t ht; cases ht
  | step_create db0 db2 title i hr hc ih =>
    by_cases hx : trim title = ""
    · rw [create, if_pos hx] at hc
      exact Except.noConfusion hc
    · rw [create, if_neg hx] at hc
      cases hc
      intro t ht
      rcases List.mem_append.mp ht with h1 | h1
      · exact ih t h1
      · rw [List.mem_singleton.mp h1]
        exact hx
  | step_toggle db0 db2 id hr hc ih =>
    cases hf : findById id db0.todos with
    | none =>
      rw [toggleComplete, hf] at hc
      exact Except.noConfusion hc
    | some u =>
      rw [toggleComplete, hf] at hc
      cases hc
      intro t ht
      have hmt : t.title ∈ (toggleById id db0.todos).map Todo.title :=
        List.mem_map_of_mem Todo.title ht
      rw [toggleById_map_title] at hmt
      rcases List.mem_map.mp hmt with ⟨v, hv, hvt⟩
      rw [← hvt]
      exact ih v hv
  | step_remove db0 id hr ih =>
    intro t ht
    exact ih t (mem_removeById id db0.todos t ht)
  | step_clear db0 hr ih =>
    intro t ht
    exact absurd ht (List.not_mem_nil t)

/-- C8: in every store state reachable through the handlers, every record's
title is non-empty (and even non-empty after trimming, since it was
validated at creation); and the toggle mutation, the only operation that
updates a record, never changes any title. -/
theorem title_nonempty_invariant (db : DB) (h : Reach db) :
    (∀ t ∈ db.todos, t.title ≠ "") ∧
    (∀ id db2, toggleComplete id db = Except.ok db2 →
      db2.todos.map Todo.title = db.todos.map Todo.title) := by
  constructor
  · intro t ht heq
    exact reach_titles db h t ht (by rw [heq]; rfl)
  · intro id db2 h2
    cases hf : findById id db.todos with
    | none =>
      rw [toggleComplete, hf] at h2
      exact Except.noConfusion h2
    | some u =>
      rw [toggleComplete, hf] at h2
      cases h2
      exact toggleById_map_title id db.todos

theorem title_nonempty_invariant_witness :
    (∀ t ∈ dbA.todos, t.title ≠ "") ∧
    (∀ id db2, toggleComplete id dbA = Except.ok db2 →
      db2.todos.map Todo.title = dbA.todos.map Todo.title) :=
  title_nonempty_invariant dbA
    (Reach.step_create DB.empty dbA "A" 0 Reach.empty rfl)

/-- C9: a form submission whose input is empty after trimming issues no
create call and changes neither the input field nor the store; and whenever
the issued create call returns successfully the input field is reset to the
empty string. -/
theorem handleSubmit_spec (s : String) (db : DB) :
    (trim s = "" → handleSubmit s db = ⟨none, s, db⟩) ∧
    (∀ p, create (trim s) db = Except.ok p →
      handleSubmit s db = ⟨some (trim s), "", p.2⟩) := by
  constructor
  · intro h
    rw [handleSubmit, if_pos h]
  · intro p hp
    have hne : ¬ trim s = "" := by
      intro h0
      rw [h0] at hp
      have hc : create "" db = Except.error StoreErr.validationError := rfl
      rw [hc] at hp
      exact Except.noConfusion hp
    rw [handleSubmit, if_neg hne, hp]

theorem handleSubmit_spec_witness :
    handleSubmit "  " DB.empty = ⟨none, "  ", DB.empty⟩ ∧
    handleSubmit " a " DB.empty = ⟨some "a", "", dbLa⟩ :=
  ⟨(handleSubmit_spec "  " DB.empty).1 rfl,
   (handleSubmit_spec " a " DB.empty).2 (0, dbLa) rfl⟩

/-- C10: every accepted form submission passes exactly the trimmed input
string to create as the title, so any record the submission adds to the
store carries the trimmed input as its title. -/
theorem handleSubmit_trims (s : String) (db : DB) (h : trim s ≠ "") :
    (handleSubmit s db).call = some (trim s) ∧
    (∀ t ∈ (handleSubmit s db).db.todos, t ∈ db.todos ∨ t.title = trim s) := by
  rw [handleSubmit, if_neg h]
  cases hc : create (trim s) db with
  | ok p =>
    by_cases hx : trim (trim s) = ""
    · rw [create, if_pos hx] at hc
      exact Except.noConfusion hc
    · rw [create, if_neg hx] at hc
      cases hc
      refine ⟨rfl, ?_⟩
      intro t ht
      rcases List.mem_append.mp ht with h1 | h1
      · exact Or.inl h1
      · exact Or.inr (by rw [List.mem_singleton.mp h1])
  | error e =>
    refine ⟨rfl, ?_⟩
    intro t ht
    exact Or.inl ht

theorem handleSubmit_trims_witness :
    (handleSubmit " a " DB.empty).call = some (trim " a ") ∧
    (∀ t ∈ (handleSubmit " a " DB.empty).db.todos,
      t ∈ DB.empty.todos ∨ t.title = trim " a ") :=
  handleSubmit_trims " a " DB.empty (by decide)

end Todos
